import Mathlib

/-!
# Verification of the vFlow repository index generator

A shallow embedding of `generate-index.py`, the single script of this
repository, together with theorems about the behaviour its documentation
describes.  JSON documents are modelled as an inductive `JValue`; the JSON
objects produced by `json.load` are association lists with distinct keys,
in insertion order, exactly as Python dictionaries present them.  File
system effects (reading the directory, rewriting workflow files) are made
explicit: a directory is an optional list of named files, and the scanner
returns the resulting directory contents alongside the index items.
-/

/-- A JSON value, as produced by `json.load`. -/
inductive JValue where
  | null : JValue
  | bool (b : Bool) : JValue
  | num (n : Int) : JValue
  | str (s : String) : JValue
  | arr (elems : List JValue) : JValue
  | obj (fields : List (String × JValue)) : JValue
  deriving Repr

/-- Key lookup in a JSON object (Python `d[k]` / `k in d`); dictionary keys
are distinct, so first match is the match. -/
def lookupField (k : String) : List (String × JValue) → Option JValue
  | [] => none
  | kv :: rest => if kv.1 = k then some kv.2 else lookupField k rest

/-- Python dictionary assignment `d[k] = v`: replaces the value at an
existing key in place (keeping its position), otherwise appends the new
binding at the end. -/
def setField (k : String) (v : JValue) : List (String × JValue) → List (String × JValue)
  | [] => [(k, v)]
  | kv :: rest => if kv.1 = k then (k, v) :: rest else kv :: setField k v rest

/-- Python `d.get(k, default)`. -/
def jGet (m : List (String × JValue)) (k : String) (default : JValue) : JValue :=
  (lookupField k m).getD default

/-- Python `v == s` where `s` is a string: true exactly when `v` is that
same string (values of other types never compare equal to a string). -/
def jStrEq (v : JValue) (s : String) : Bool :=
  match v with
  | JValue.str t => t == s
  | _ => false

/-- The characters of the workflow filename suffix `.json`. -/
def jsonSuffix : List Char := ['.', 'j', 's', 'o', 'n']

/-- The characters of the module filename suffix `.zip`. -/
def zipSuffix : List Char := ['.', 'z', 'i', 'p']

/-- One scanning pass of Python `s.replace(p, '')`: each occurrence of the
pattern is removed and scanning resumes after the removed occurrence
(left to right, non overlapping).  The fuel argument only serves
structural recursion; `pyReplace` supplies enough fuel for the whole
string, so it is never exhausted. -/
def pyReplaceAux : Nat → List Char → List Char → List Char
  | 0, _, s => s
  | _ + 1, _, [] => []
  | fuel + 1, p, c :: rest =>
      if p ≠ [] ∧ p.isPrefixOf (c :: rest) then
        pyReplaceAux fuel p (List.drop p.length (c :: rest))
      else
        c :: pyReplaceAux fuel p rest

/-- Python `s.replace(p, '')` for a non empty pattern `p`. -/
def pyReplace (p s : List Char) : List Char :=
  pyReplaceAux s.length p s

/-- `normalize_workflow_id` from the script: if the filename ends with
`.json`, return `filename.replace('.json', '')`, else the filename
unchanged. -/
def normalize_workflow_id (filename : String) : String :=
  if jsonSuffix.isSuffixOf filename.toList then
    (pyReplace jsonSuffix filename.toList).asString
  else filename

/-- `normalize_module_id` from the script: if the filename ends with
`.zip`, return `filename.replace('.zip', '')`, else the filename
unchanged. -/
def normalize_module_id (filename : String) : String :=
  if zipSuffix.isSuffixOf filename.toList then
    (pyReplace zipSuffix filename.toList).asString
  else filename

/-- Modelled from the spec: the normalizer as the specification describes
it, removing only the trailing suffix when present and leaving the rest of
the filename untouched.  Used to compare the script with the spec. -/
def stripSuffixSpec (p : List Char) (s : String) : String :=
  if p.isSuffixOf s.toList then (s.toList.take (s.toList.length - p.length)).asString
  else s

/-! ## Workflows -/

/-- The outcomes of `validate_workflow`.  The script reports errors as
formatted strings; they are modelled structurally so that theorems can
speak about which error occurred and which fields it names. -/
inductive WError where
  | noMeta : WError
  | metaNotObject : WError
  | missingRequiredFields (fields : List String) : WError
  | idMismatch (expected : String) (actual : JValue) : WError

/-- `required_meta_fields` from `validate_workflow`. -/
def required_meta_fields : List String :=
  ["id", "name", "description", "author", "version", "vFlowLevel"]

/-- `validate_workflow(data, filename)`.  The script returns a triple
`(is_valid, error_message, data)`; this is modelled as `none` for a valid
document and `some e` for the reported error.  A `_meta` value that is not
an object is reported through `metaNotObject`: on such documents the
script also records an error and skips the file (through its per file
exception handling), so the scan level behaviour is identical. -/
def validate_workflow (data : List (String × JValue)) (filename : String) : Option WError :=
  match lookupField "_meta" data with
  | none => some WError.noMeta
  | some (JValue.obj meta) =>
      let missing_fields := required_meta_fields.filter fun f => (lookupField f meta).isNone
      if missing_fields ≠ [] then
        some (WError.missingRequiredFields missing_fields)
      else
        let expected_id := normalize_workflow_id filename
        let meta_id := jGet meta "id" JValue.null
        if jStrEq meta_id expected_id then none
        else some (WError.idMismatch expected_id meta_id)
  | some _ => some WError.metaNotObject

/-- `clean_workflow_for_repo(data)`: a copy of the document with
`isEnabled`, `isFavorite` and `wasEnabledBeforePermissionsLost` forced to
`false`, in that order. -/
def clean_workflow_for_repo (data : List (String × JValue)) : List (String × JValue) :=
  setField "wasEnabledBeforePermissionsLost" (JValue.bool false)
    (setField "isFavorite" (JValue.bool false)
      (setField "isEnabled" (JValue.bool false) data))

/-- Contents of a file in the workflows directory: either text that
`json.load` rejects, or a parsed JSON object.  Top level JSON values that
are not objects also lead to a recorded error and a skipped file in the
script, and are folded into `parseError` here. -/
inductive WFileContent where
  | parseError : WFileContent
  | doc (data : List (String × JValue)) : WFileContent

/-- A file of the workflows directory. -/
structure WFile where
  name : String
  content : WFileContent

/-- The per file errors the workflow scanner can record (each is printed
with the filename in front). -/
inductive WScanError where
  | parse : WScanError
  | invalid (e : WError) : WScanError

/-- An entry of the workflows index, as built in `scan_workflows_directory`. -/
structure WItem where
  id : JValue
  name : JValue
  description : JValue
  author : JValue
  version : JValue
  vFlowLevel : JValue
  homepage : JValue
  tags : JValue
  updated_at : JValue
  filename : String
  download_url : String
  local_path : String

/-- What the loop body of `scan_workflows_directory` does with one file. -/
inductive WStep where
  | notMatched : WStep
  | failed (e : WScanError) : WStep
  | ok (item : WItem) (rewritten : WFile) : WStep

/-- The loop body of `scan_workflows_directory` on one file of the
directory: files not matched by `glob('*.json')` and the file
`index.json` are passed over; a parse or validation failure is recorded
and the file is skipped; otherwise the index entry is built from the
`_meta` block (with the `.get` defaults of the script) and the cleaned
document is written back to the file. -/
def processWFile (directory_path : String) (f : WFile) : WStep :=
  if ¬ jsonSuffix.isSuffixOf f.name.toList then WStep.notMatched
  else if f.name = "index.json" then WStep.notMatched
  else
    match f.content with
    | WFileContent.parseError => WStep.failed WScanError.parse
    | WFileContent.doc data =>
        match validate_workflow data f.name with
        | some e => WStep.failed (WScanError.invalid e)
        | none =>
            let meta := match lookupField "_meta" data with
              | some (JValue.obj m) => m
              | _ => []
            let cleaned_workflow := clean_workflow_for_repo data
            let item : WItem := {
              id := jGet meta "id" (JValue.str (normalize_workflow_id f.name)),
              name := jGet meta "name" (JValue.str "未命名"),
              description := jGet meta "description" (JValue.str ""),
              author := jGet meta "author" (JValue.str "未知"),
              version := jGet meta "version" (JValue.str "1.0.0"),
              vFlowLevel := jGet meta "vFlowLevel" (JValue.num 1),
              homepage := jGet meta "homepage" (JValue.str ""),
              tags := jGet meta "tags" (JValue.arr []),
              updated_at := jGet meta "updated_at" (JValue.str ""),
              filename := f.name,
              download_url :=
                "https://raw.githubusercontent.com/ChaoMixian/vFlow-Repos/main/workflows/"
                  ++ f.name,
              local_path := directory_path ++ "/" ++ f.name }
            WStep.ok item { name := f.name, content := WFileContent.doc cleaned_workflow }

/-- Result of a directory scan: the index items, the recorded errors
(paired with the filename they concern) and the skipped filenames. -/
structure WScanResult where
  items : List WItem
  errors : List (String × WScanError)
  skipped_files : List String

/-- The loop of `scan_workflows_directory` over the files of the
directory, also returning the directory contents after the rewrites. -/
def scan_workflows_list (directory_path : String) :
    List WFile → WScanResult × List WFile
  | [] => (⟨[], [], []⟩, [])
  | f :: rest =>
      let r := scan_workflows_list directory_path rest
      match processWFile directory_path f with
      | WStep.notMatched => (r.1, f :: r.2)
      | WStep.failed e =>
          (⟨r.1.items, (f.name, e) :: r.1.errors, f.name :: r.1.skipped_files⟩, f :: r.2)
      | WStep.ok item nf =>
          (⟨item :: r.1.items, r.1.errors, r.1.skipped_files⟩, nf :: r.2)

/-- `scan_workflows_directory(directory_path)`: a missing directory
(`contents = none`) yields empty items, errors and skipped lists and
leaves the file system untouched; otherwise the files are processed in
order. -/
def scan_workflows_directory (directory_path : String) (contents : Option (List WFile)) :
    WScanResult × Option (List WFile) :=
  match contents with
  | none => (⟨[], [], []⟩, none)
  | some files =>
      let r := scan_workflows_list directory_path files
      (r.1, some r.2)

/-! ## Modules -/

/-- The outcomes of `validate_module`, modelled structurally. -/
inductive MError where
  | missingRequiredFields (fields : List String) : MError
  | idMismatch (expected : String) (actual : JValue) : MError

/-- `required_fields` from `validate_module`. -/
def required_fields : List String :=
  ["id", "name", "description", "author", "version", "category"]

/-- `validate_module(manifest, filename)`: `none` for a valid manifest,
`some e` for the reported error. -/
def validate_module (manifest : List (String × JValue)) (filename : String) : Option MError :=
  let missing_fields := required_fields.filter fun f => (lookupField f manifest).isNone
  if missing_fields ≠ [] then
    some (MError.missingRequiredFields missing_fields)
  else
    let expected_id := normalize_module_id filename
    let manifest_id := jGet manifest "id" JValue.null
    if jStrEq manifest_id expected_id then none
    else some (MError.idMismatch expected_id manifest_id)

/-- Contents of a file in the modules directory, as the scanner sees it:
an archive that `zipfile` rejects, an archive with no entry whose name
ends in `manifest.json`, an archive whose manifest `json.load` rejects
(non object manifests, which the script also fails and skips, are folded
in), or a parsed manifest object. -/
inductive MFileContent where
  | badZip : MFileContent
  | noManifest : MFileContent
  | manifestParseError : MFileContent
  | manifest (m : List (String × JValue)) : MFileContent

/-- A file of the modules directory. -/
structure MFile where
  name : String
  content : MFileContent

/-- The per file errors the module scanner can record. -/
inductive MScanError where
  | badZip : MScanError
  | noManifest : MScanError
  | parse : MScanError
  | invalid (e : MError) : MScanError

/-- An entry of the modules index, as built in `scan_modules_directory`. -/
structure MItem where
  id : JValue
  name : JValue
  description : JValue
  author : JValue
  version : JValue
  category : JValue
  homepage : JValue
  permissions : JValue
  inputs : JValue
  outputs : JValue
  filename : String
  download_url : String
  local_path : String

/-- What the loop body of `scan_modules_directory` does with one file. -/
inductive MStep where
  | notMatched : MStep
  | failed (e : MScanError) : MStep
  | ok (item : MItem) : MStep

/-- The loop body of `scan_modules_directory` on one file: files not
matched by `glob('*.zip')` (and `index.json`, which the script also
tests for) are passed over; failures to open the archive, find the
manifest, parse it or validate it are recorded and the file is skipped;
otherwise the index entry is built from the manifest with the `.get`
defaults of the script.  Module files are never rewritten. -/
def processMFile (directory_path : String) (f : MFile) : MStep :=
  if ¬ zipSuffix.isSuffixOf f.name.toList then MStep.notMatched
  else if f.name = "index.json" then MStep.notMatched
  else
    match f.content with
    | MFileContent.badZip => MStep.failed MScanError.badZip
    | MFileContent.noManifest => MStep.failed MScanError.noManifest
    | MFileContent.manifestParseError => MStep.failed MScanError.parse
    | MFileContent.manifest manifest =>
        match validate_module manifest f.name with
        | some e => MStep.failed (MScanError.invalid e)
        | none =>
            let item : MItem := {
              id := jGet manifest "id" (JValue.str (normalize_module_id f.name)),
              name := jGet manifest "name" (JValue.str "未命名"),
              description := jGet manifest "description" (JValue.str ""),
              author := jGet manifest "author" (JValue.str "未知"),
              version := jGet manifest "version" (JValue.str "1.0.0"),
              category := jGet manifest "category" (JValue.str "用户脚本"),
              homepage := jGet manifest "homepage" (JValue.str ""),
              permissions := jGet manifest "permissions" (JValue.arr []),
              inputs := jGet manifest "inputs" (JValue.arr []),
              outputs := jGet manifest "outputs" (JValue.arr []),
              filename := f.name,
              download_url :=
                "https://raw.githubusercontent.com/ChaoMixian/vFlow-Repos/main/modules/"
                  ++ f.name,
              local_path := directory_path ++ "/" ++ f.name }
            MStep.ok item

/-- Result of the modules directory scan. -/
structure MScanResult where
  items : List MItem
  errors : List (String × MScanError)
  skipped_files : List String

/-- The loop of `scan_modules_directory` over the files of the directory. -/
def scan_modules_list (directory_path : String) : List MFile → MScanResult
  | [] => ⟨[], [], []⟩
  | f :: rest =>
      let r := scan_modules_list directory_path rest
      match processMFile directory_path f with
      | MStep.notMatched => r
      | MStep.failed e =>
          ⟨r.items, (f.name, e) :: r.errors, f.name :: r.skipped_files⟩
      | MStep.ok item => ⟨item :: r.items, r.errors, r.skipped_files⟩

/-- `scan_modules_directory(directory_path)`: a missing directory yields
empty items, errors and skipped lists; otherwise the files are processed
in order. -/
def scan_modules_directory (directory_path : String) (contents : Option (List MFile)) :
    MScanResult :=
  match contents with
  | none => ⟨[], [], []⟩
  | some files => scan_modules_list directory_path files

/-! ## Index generation and the exit code -/

/-- The index document written by `generate_index` (without the wall
clock `last_updated` timestamp, which no property concerns). -/
structure IndexDoc (ι : Type) where
  version : String
  total_count : Nat
  entries : List ι

/-- The comparison `items.sort(key=lambda x: x['id'])` performs on two id
values: for two Python strings this is plain lexicographic comparison.
Every item the scanners produce has a string id (validation forces the id
to equal the normalized filename), so the string case is the only one the
script ever exercises; the other cases make the comparison total. -/
def idLe (a b : JValue) : Bool :=
  match a, b with
  | JValue.str x, JValue.str y => decide (x ≤ y)
  | JValue.str _, _ => false
  | _, _ => true

/-- `generate_index(directory, item_type, scan_func)`, on the scan result
of its directory: sorts the collected items ascending by their id, builds
the index document with `total_count` equal to the number of entries, and
then unconditionally opens `directory/index.json` for writing with no
surrounding try/except.  `open(path, 'w')` does not create the parent
directory, so when the directory does not exist (`dir_exists = false`)
the write raises `FileNotFoundError`, which nothing in the script
catches: modelled as `none`, the function does not return.  When the
directory exists, the document is written and the function returns it
together with its success flag, `len(errors) == 0`. -/
def generate_index {ι ε : Type} (idOf : ι → JValue) (dir_exists : Bool)
    (items : List ι) (errors : List ε) : Option (IndexDoc ι × Bool) :=
  let sorted := items.mergeSort fun a b => idLe (idOf a) (idOf b)
  let index : IndexDoc ι := ⟨"1.0", sorted.length, sorted⟩
  if dir_exists then some (index, decide (errors.length = 0))
  else none

/-- `main()` (named `script_main` here because Lean reserves `main` for
executables): runs `generate_index` over the workflows directory and then
the modules directory (the file systems under the two paths are passed
explicitly; the directory exists exactly when its contents are `some`).
An uncaught `FileNotFoundError` from either run aborts the interpreter —
the rest of `main` never executes and the process exits with status 1;
otherwise `sys.exit` gives status 0 when both runs succeeded and 1
otherwise. -/
def script_main (workflows_dir modules_dir : String)
    (workflow_files : Option (List WFile)) (module_files : Option (List MFile)) : Nat :=
  let wr := scan_workflows_directory workflows_dir workflow_files
  match generate_index (fun it : WItem => it.id) workflow_files.isSome
      wr.1.items wr.1.errors with
  | none => 1
  | some (_, wok) =>
      let mr := scan_modules_directory modules_dir module_files
      match generate_index (fun it : MItem => it.id) module_files.isSome
          mr.items mr.errors with
      | none => 1
      | some (_, mok) => if wok && mok then 0 else 1

/-! ## Lemmas about object update and lookup -/

theorem lookupField_setField_self (k : String) (v : JValue) (m : List (String × JValue)) :
    lookupField k (setField k v m) = some v := by
  induction m with
  | nil => simp [setField, lookupField]
  | cons kv rest ih =>
      by_cases h : kv.1 = k
      · simp [setField, h, lookupField]
      · simp [setField, h, lookupField, ih]

theorem lookupField_setField_ne {k k' : String} (h : k ≠ k') (v : JValue)
    (m : List (String × JValue)) :
    lookupField k (setField k' v m) = lookupField k m := by
  induction m with
  | nil => simp [setField, lookupField, Ne.symm h]
  | cons kv rest ih =>
      obtain ⟨a, b⟩ := kv
      by_cases hk : a = k'
      · subst hk
        simp [setField, lookupField, Ne.symm h]
      · by_cases hk2 : a = k
        · subst hk2
          simp [setField, lookupField, hk]
        · simp [setField, lookupField, hk, hk2, ih]

theorem setField_eq_of_lookupField {k : String} {v : JValue} {m : List (String × JValue)}
    (h : lookupField k m = some v) : setField k v m = m := by
  induction m with
  | nil => simp [lookupField] at h
  | cons kv rest ih =>
      obtain ⟨a, b⟩ := kv
      by_cases hk : a = k
      · subst hk
        simp [lookupField] at h
        simp [setField, h]
      · simp [lookupField, hk] at h
        simp [setField, hk, ih h]

theorem lookupField_clean_of_ne {k : String} (h1 : k ≠ "isEnabled") (h2 : k ≠ "isFavorite")
    (h3 : k ≠ "wasEnabledBeforePermissionsLost") (d : List (String × JValue)) :
    lookupField k (clean_workflow_for_repo d) = lookupField k d := by
  unfold clean_workflow_for_repo
  rw [lookupField_setField_ne h3, lookupField_setField_ne h2, lookupField_setField_ne h1]

theorem lookupField_clean_isEnabled (d : List (String × JValue)) :
    lookupField "isEnabled" (clean_workflow_for_repo d) = some (JValue.bool false) := by
  unfold clean_workflow_for_repo
  rw [lookupField_setField_ne (by decide), lookupField_setField_ne (by decide),
    lookupField_setField_self]

theorem lookupField_clean_isFavorite (d : List (String × JValue)) :
    lookupField "isFavorite" (clean_workflow_for_repo d) = some (JValue.bool false) := by
  unfold clean_workflow_for_repo
  rw [lookupField_setField_ne (by decide), lookupField_setField_self]

theorem lookupField_clean_wasEnabled (d : List (String × JValue)) :
    lookupField "wasEnabledBeforePermissionsLost" (clean_workflow_for_repo d)
      = some (JValue.bool false) := by
  unfold clean_workflow_for_repo
  rw [lookupField_setField_self]

theorem clean_idempotent (d : List (String × JValue)) :
    clean_workflow_for_repo (clean_workflow_for_repo d) = clean_workflow_for_repo d := by
  conv_lhs => rw [clean_workflow_for_repo]
  rw [setField_eq_of_lookupField (lookupField_clean_isEnabled d),
    setField_eq_of_lookupField (lookupField_clean_isFavorite d),
    setField_eq_of_lookupField (lookupField_clean_wasEnabled d)]

/-! ## Lemmas about `replace` and the normalizers -/

theorem pyReplaceAux_nil (p : List Char) (fuel : Nat) : pyReplaceAux fuel p [] = [] := by
  cases fuel <;> rfl

theorem pyReplaceAux_append_self (p : List Char) (hp : p ≠ []) :
    ∀ (stem : List Char) (fuel : Nat), (stem ++ p).length ≤ fuel →
      (∀ i, i < stem.length → p.isPrefixOf ((stem ++ p).drop i) = false) →
      pyReplaceAux fuel p (stem ++ p) = stem := by
  intro stem
  induction stem with
  | nil =>
      intro fuel hfuel _
      obtain ⟨c, ps, rfl⟩ : ∃ c ps, p = c :: ps := by
        cases p with
        | nil => exact absurd rfl hp
        | cons c ps => exact ⟨c, ps, rfl⟩
      cases fuel with
      | zero => simp at hfuel
      | succ f =>
          simp only [List.nil_append] at *
          rw [pyReplaceAux, if_pos ⟨hp, List.isPrefixOf_iff_prefix.mpr (List.prefix_refl _)⟩]
          rw [List.drop_length, pyReplaceAux_nil]
  | cons c stem' ih =>
      intro fuel hfuel h
      cases fuel with
      | zero => simp at hfuel
      | succ f =>
          have h0 : p.isPrefixOf ((c :: stem') ++ p) = false := by
            have := h 0 (by simp)
            simpa using this
          rw [List.cons_append, pyReplaceAux, if_neg (by
            rintro ⟨-, hpre⟩
            rw [List.cons_append] at h0
            exact absurd hpre (by simp [h0]))]
          rw [ih f (by simpa using Nat.le_of_succ_le_succ hfuel) (by
            intro i hi
            have := h (i + 1) (by simpa using Nat.succ_lt_succ hi)
            simpa using this)]

theorem pyReplace_single_occurrence (p : List Char) (hp : p ≠ []) (s : List Char)
    (hsuf : p <:+ s) (h : ∀ i, i < s.length - p.length → p.isPrefixOf (s.drop i) = false) :
    pyReplace p s = s.take (s.length - p.length) := by
  obtain ⟨stem, rfl⟩ := hsuf
  have hlen : (stem ++ p).length - p.length = stem.length := by
    simp
  rw [hlen, List.take_left]
  exact pyReplaceAux_append_self p hp stem (stem ++ p).length (le_refl _)
    (fun i hi => h i (by rw [hlen]; exact hi))

theorem normalize_eq_strip_of_single (p : List Char) (hp : p ≠ []) (fn : String)
    (h : ∀ i, i < fn.toList.length - p.length → p.isPrefixOf (fn.toList.drop i) = false) :
    (if p.isSuffixOf fn.toList then (pyReplace p fn.toList).asString else fn)
      = stripSuffixSpec p fn := by
  unfold stripSuffixSpec
  by_cases hs : p.isSuffixOf fn.toList = true
  · rw [if_pos hs, if_pos hs,
      pyReplace_single_occurrence p hp fn.toList (List.isSuffixOf_iff_suffix.mp hs) h]
  · rw [if_neg hs, if_neg hs]

/-! ## Lemmas about validation, scanning and sorting -/

theorem jStrEq_true_iff (v : JValue) (s : String) : jStrEq v s = true ↔ v = JValue.str s := by
  cases v <;> simp [jStrEq]

theorem validate_workflow_none {data : List (String × JValue)} {fn : String}
    (h : validate_workflow data fn = none) :
    ∃ meta, lookupField "_meta" data = some (JValue.obj meta) ∧
      (required_meta_fields.filter fun f => (lookupField f meta).isNone) = [] ∧
      lookupField "id" meta = some (JValue.str (normalize_workflow_id fn)) := by
  unfold validate_workflow at h
  cases hm : lookupField "_meta" data with
  | none => rw [hm] at h; simp at h
  | some v =>
      rw [hm] at h
      cases v with
      | obj meta =>
          refine ⟨meta, rfl, ?_, ?_⟩ <;>
          · simp only [] at h
            by_cases hmiss : (required_meta_fields.filter fun f => (lookupField f meta).isNone) = []
            · rw [if_neg (by simpa using hmiss)] at h
              first
              | exact hmiss
              | (by_cases hid : jStrEq (jGet meta "id" JValue.null) (normalize_workflow_id fn)
                      = true
                 · rw [jStrEq_true_iff] at hid
                   cases hl : lookupField "id" meta with
                   | none => rw [jGet, hl] at hid; simp [Option.getD] at hid
                   | some w => rw [jGet, hl] at hid; simp [Option.getD] at hid; rw [hid]
                 · rw [if_neg hid] at h; simp at h)
            · rw [if_pos (by simpa using hmiss)] at h
              simp at h
      | null => simp at h
      | bool b => simp at h
      | num n => simp at h
      | str s => simp at h
      | arr xs => simp at h

theorem validate_module_none {manifest : List (String × JValue)} {fn : String}
    (h : validate_module manifest fn = none) :
    (required_fields.filter fun f => (lookupField f manifest).isNone) = [] ∧
      lookupField "id" manifest = some (JValue.str (normalize_module_id fn)) := by
  unfold validate_module at h
  simp only [] at h
  by_cases hmiss : (required_fields.filter fun f => (lookupField f manifest).isNone) = []
  · rw [if_neg (by simpa using hmiss)] at h
    refine ⟨hmiss, ?_⟩
    by_cases hid : jStrEq (jGet manifest "id" JValue.null) (normalize_module_id fn) = true
    · rw [jStrEq_true_iff] at hid
      cases hl : lookupField "id" manifest with
      | none => rw [jGet, hl] at hid; simp [Option.getD] at hid
      | some w => rw [jGet, hl] at hid; simp [Option.getD] at hid; rw [hid]
    · rw [if_neg hid] at h; simp at h
  · rw [if_pos (by simpa using hmiss)] at h
    simp at h

theorem idLe_trans (a b c : JValue) (hab : idLe a b = true) (hbc : idLe b c = true) :
    idLe a c = true := by
  cases a <;> cases b <;> cases c <;> simp_all [idLe]
  exact le_trans hab hbc

theorem idLe_total (a b : JValue) : (idLe a b || idLe b a) = true := by
  cases a <;> cases b <;> simp [idLe]
  exact le_total _ _

theorem idLe_str {a b : JValue} (h : idLe a b = true) :
    ∀ x y, a = JValue.str x → b = JValue.str y → x ≤ y := by
  intro x y hx hy
  subst hx
  subst hy
  simpa [idLe] using h

theorem generate_index_success_iff {ι ε : Type} (idOf : ι → JValue)
    (items : List ι) (errors : List ε) {doc : IndexDoc ι} {ok : Bool}
    (h : generate_index idOf true items errors = some (doc, ok)) :
    ok = true ↔ errors = [] := by
  simp [generate_index] at h
  rw [← h.2]
  simp [List.length_eq_zero]

theorem scan_workflows_list_append (dp : String) (l₁ l₂ : List WFile) :
    scan_workflows_list dp (l₁ ++ l₂) =
      (⟨(scan_workflows_list dp l₁).1.items ++ (scan_workflows_list dp l₂).1.items,
        (scan_workflows_list dp l₁).1.errors ++ (scan_workflows_list dp l₂).1.errors,
        (scan_workflows_list dp l₁).1.skipped_files
          ++ (scan_workflows_list dp l₂).1.skipped_files⟩,
       (scan_workflows_list dp l₁).2 ++ (scan_workflows_list dp l₂).2) := by
  induction l₁ with
  | nil => simp [scan_workflows_list]
  | cons f rest ih =>
      simp only [List.cons_append, scan_workflows_list]
      cases processWFile dp f <;> simp [ih]

theorem processWFile_ok_inv {dp : String} {f : WFile} {item : WItem} {nf : WFile}
    (h : processWFile dp f = WStep.ok item nf) :
    ∃ data meta,
      jsonSuffix.isSuffixOf f.name.toList = true ∧
      f.name ≠ "index.json" ∧
      f.content = WFileContent.doc data ∧
      validate_workflow data f.name = none ∧
      lookupField "_meta" data = some (JValue.obj meta) ∧
      item = ⟨jGet meta "id" (JValue.str (normalize_workflow_id f.name)),
        jGet meta "name" (JValue.str "未命名"),
        jGet meta "description" (JValue.str ""),
        jGet meta "author" (JValue.str "未知"),
        jGet meta "version" (JValue.str "1.0.0"),
        jGet meta "vFlowLevel" (JValue.num 1),
        jGet meta "homepage" (JValue.str ""),
        jGet meta "tags" (JValue.arr []),
        jGet meta "updated_at" (JValue.str ""),
        f.name,
        "https://raw.githubusercontent.com/ChaoMixian/vFlow-Repos/main/workflows/" ++ f.name,
        dp ++ "/" ++ f.name⟩ ∧
      nf = ⟨f.name, WFileContent.doc (clean_workflow_for_repo data)⟩ := by
  unfold processWFile at h
  split at h
  · simp at h
  · next hsuf =>
    split at h
    · simp at h
    · next hidx =>
      split at h
      · simp at h
      · next data hc =>
        split at h
        · simp at h
        · next hv =>
          obtain ⟨meta, hmeta, -, -⟩ := validate_workflow_none hv
          simp only [hmeta] at h
          simp only [WStep.ok.injEq] at h
          exact ⟨data, meta, by simpa using hsuf, hidx, hc, hv, hmeta, h.1.symm, h.2.symm⟩

theorem processMFile_ok_inv {dp : String} {f : MFile} {item : MItem}
    (h : processMFile dp f = MStep.ok item) :
    ∃ manifest,
      zipSuffix.isSuffixOf f.name.toList = true ∧
      f.name ≠ "index.json" ∧
      f.content = MFileContent.manifest manifest ∧
      validate_module manifest f.name = none ∧
      item = ⟨jGet manifest "id" (JValue.str (normalize_module_id f.name)),
        jGet manifest "name" (JValue.str "未命名"),
        jGet manifest "description" (JValue.str ""),
        jGet manifest "author" (JValue.str "未知"),
        jGet manifest "version" (JValue.str "1.0.0"),
        jGet manifest "category" (JValue.str "用户脚本"),
        jGet manifest "homepage" (JValue.str ""),
        jGet manifest "permissions" (JValue.arr []),
        jGet manifest "inputs" (JValue.arr []),
        jGet manifest "outputs" (JValue.arr []),
        f.name,
        "https://raw.githubusercontent.com/ChaoMixian/vFlow-Repos/main/modules/" ++ f.name,
        dp ++ "/" ++ f.name⟩ := by
  unfold processMFile at h
  split at h
  · simp at h
  · next hsuf =>
    split at h
    · simp at h
    · next hidx =>
      split at h
      · simp at h
      · simp at h
      · simp at h
      · next manifest hc =>
        split at h
        · simp at h
        · next hv =>
          simp only [MStep.ok.injEq] at h
          exact ⟨manifest, by simpa using hsuf, hidx, hc, hv, h.symm⟩

theorem validate_clean_eq (d : List (String × JValue)) (fn : String) :
    validate_workflow (clean_workflow_for_repo d) fn = validate_workflow d fn := by
  unfold validate_workflow
  rw [lookupField_clean_of_ne (by decide) (by decide) (by decide)]

theorem jGet_eq_of_filter_mem {meta : List (String × JValue)} {req : List String}
    (hfil : req.filter (fun f => (lookupField f meta).isNone) = []) {fl : String}
    (hmem : fl ∈ req) (default : JValue) :
    lookupField fl meta = some (jGet meta fl default) := by
  have h := List.filter_eq_nil_iff.mp hfil fl hmem
  cases hl : lookupField fl meta with
  | none => rw [hl] at h; simp at h
  | some v => simp [jGet, hl]

/-! ## Sample data used by the witnesses -/

/-- A complete `_meta` block for a valid workflow file named `wf.json`. -/
def sampleMeta : List (String × JValue) :=
  [("id", JValue.str "wf"), ("name", JValue.str "Sample"),
   ("description", JValue.str "a workflow"), ("author", JValue.str "ann"),
   ("version", JValue.str "1.2.0"), ("vFlowLevel", JValue.num 2)]

/-- A valid workflow document. -/
def sampleWorkflowDoc : List (String × JValue) :=
  [("_meta", JValue.obj sampleMeta), ("isEnabled", JValue.bool true),
   ("steps", JValue.arr [JValue.str "s1"])]

/-- The file `wf.json` holding `sampleWorkflowDoc`. -/
def sampleWorkflowFile : WFile := ⟨"wf.json", WFileContent.doc sampleWorkflowDoc⟩

/-- The index entry the scanner builds from `sampleWorkflowFile`. -/
def sampleWorkflowItem : WItem :=
  ⟨JValue.str "wf", JValue.str "Sample", JValue.str "a workflow", JValue.str "ann",
   JValue.str "1.2.0", JValue.num 2, JValue.str "", JValue.arr [], JValue.str "",
   "wf.json",
   "https://raw.githubusercontent.com/ChaoMixian/vFlow-Repos/main/workflows/wf.json",
   "workflows/wf.json"⟩

/-- `sampleWorkflowFile` after the scanner rewrote it with the cleaned
document. -/
def sampleCleanFile : WFile :=
  ⟨"wf.json", WFileContent.doc (clean_workflow_for_repo sampleWorkflowDoc)⟩

/-- A `_meta` block for `x.json` that lacks four of the six required
fields. -/
def sampleBadMeta : List (String × JValue) :=
  [("id", JValue.str "x"), ("author", JValue.str "ann")]

/-- A workflow document whose `_meta` lacks required fields. -/
def sampleBadDoc : List (String × JValue) := [("_meta", JValue.obj sampleBadMeta)]

/-- A complete manifest for a valid module archive named `mod.zip`. -/
def sampleManifest : List (String × JValue) :=
  [("id", JValue.str "mod"), ("name", JValue.str "Module"),
   ("description", JValue.str "a module"), ("author", JValue.str "bo"),
   ("version", JValue.str "0.1.0"), ("category", JValue.str "工具")]

/-- The archive `mod.zip` holding `sampleManifest`. -/
def sampleModuleFile : MFile := ⟨"mod.zip", MFileContent.manifest sampleManifest⟩

/-- The index entry the scanner builds from `sampleModuleFile`. -/
def sampleModuleItem : MItem :=
  ⟨JValue.str "mod", JValue.str "Module", JValue.str "a module", JValue.str "bo",
   JValue.str "0.1.0", JValue.str "工具", JValue.str "", JValue.arr [], JValue.arr [],
   JValue.arr [],
   "mod.zip",
   "https://raw.githubusercontent.com/ChaoMixian/vFlow-Repos/main/modules/mod.zip",
   "modules/mod.zip"⟩

/-! ## The claims -/

/-- C1, evaluated at the failing input (code bug): for a directory path
that does not exist the scan itself does return zero items, zero errors
and zero skipped files, exactly as claimed; but the claimed overall
success is not delivered.  `generate_index` then opens
`directory/index.json` for writing inside the missing directory, the
uncaught `FileNotFoundError` aborts the run, and the process exits with
status 1 — whichever of the two directories is the missing one — instead
of counting the directory toward exit code 0. -/
theorem missing_directory_crashes (dp dp' : String) :
    scan_workflows_directory dp none = (⟨[], [], []⟩, none) ∧
    scan_modules_directory dp' none = ⟨[], [], []⟩ ∧
    (∀ (ι ε : Type) (idOf : ι → JValue) (items : List ι) (errors : List ε),
      generate_index idOf false items errors = none) ∧
    script_main dp dp' none none = 1 ∧
    script_main dp dp' none (some []) = 1 ∧
    script_main dp dp' (some []) none = 1 :=
  ⟨rfl, rfl, fun _ _ _ _ _ => rfl, rfl, rfl, rfl⟩

/-- C2, counterexample: the identifier normalizers do not merely strip the
trailing suffix.  Python `replace` removes every occurrence of the suffix
once the filename ends with it: `a.json.json` normalizes to `a`, not to
`a.json`, and `b.zip.zip` to `b`, not `b.zip`. -/
theorem normalize_strips_every_occurrence_counterexample :
    normalize_workflow_id "a.json.json" = "a" ∧
    stripSuffixSpec jsonSuffix "a.json.json" = "a.json" ∧
    normalize_workflow_id "a.json.json" ≠ stripSuffixSpec jsonSuffix "a.json.json" ∧
    normalize_module_id "b.zip.zip" = "b" ∧
    stripSuffixSpec zipSuffix "b.zip.zip" = "b.zip" ∧
    normalize_module_id "b.zip.zip" ≠ stripSuffixSpec zipSuffix "b.zip.zip" := by
  decide

/-- C2, amended: a filename that does not end with the known suffix is
returned unchanged; a filename that ends with the suffix has every
occurrence of the suffix removed (Python `replace` semantics), which
coincides with removing just the trailing suffix — the rest preserved
character for character — whenever the suffix occurs nowhere before the
trailing position. -/
theorem normalize_id_amended :
    (∀ fn : String,
      (∀ i, i < fn.toList.length - jsonSuffix.length →
        jsonSuffix.isPrefixOf (fn.toList.drop i) = false) →
      normalize_workflow_id fn = stripSuffixSpec jsonSuffix fn) ∧
    (∀ fn : String, jsonSuffix.isSuffixOf fn.toList = false →
      normalize_workflow_id fn = fn) ∧
    (∀ fm : String,
      (∀ i, i < fm.toList.length - zipSuffix.length →
        zipSuffix.isPrefixOf (fm.toList.drop i) = false) →
      normalize_module_id fm = stripSuffixSpec zipSuffix fm) ∧
    (∀ fm : String, zipSuffix.isSuffixOf fm.toList = false →
      normalize_module_id fm = fm) := by
  refine ⟨fun fn h => normalize_eq_strip_of_single jsonSuffix (by decide) fn h,
    fun fn h => ?_,
    fun fm h => normalize_eq_strip_of_single zipSuffix (by decide) fm h,
    fun fm h => ?_⟩
  · unfold normalize_workflow_id
    rw [if_neg (by rw [h]; simp)]
  · unfold normalize_module_id
    rw [if_neg (by rw [h]; simp)]

/-- Witness for C2 amended: on `hello.json`, where `.json` occurs only at
the end, the normalizer strips exactly the trailing suffix; on
`readme.txt` it returns the filename unchanged. -/
theorem normalize_id_amended_witness :
    normalize_workflow_id "hello.json" = stripSuffixSpec jsonSuffix "hello.json" ∧
    normalize_workflow_id "readme.txt" = "readme.txt" ∧
    normalize_module_id "pkg.zip" = stripSuffixSpec zipSuffix "pkg.zip" :=
  ⟨normalize_id_amended.1 "hello.json" (by decide),
   normalize_id_amended.2.1 "readme.txt" (by decide),
   normalize_id_amended.2.2.1 "pkg.zip" (by decide)⟩

/-- C3: a workflow file on which the scanner records a per file error —
a parse failure or a validation failure — contributes no index entry, is
recorded in the errors and skipped lists, is left untouched on disk, and
does not stop the scan: every other file of the directory is processed
exactly as it would be without the failing file. -/
theorem scan_error_skips_file_and_continues (dp : String) (pre post : List WFile)
    (f : WFile) (e : WScanError) (h : processWFile dp f = WStep.failed e) :
    scan_workflows_list dp (pre ++ f :: post) =
      (⟨(scan_workflows_list dp pre).1.items ++ (scan_workflows_list dp post).1.items,
        (scan_workflows_list dp pre).1.errors
          ++ (f.name, e) :: (scan_workflows_list dp post).1.errors,
        (scan_workflows_list dp pre).1.skipped_files
          ++ f.name :: (scan_workflows_list dp post).1.skipped_files⟩,
       (scan_workflows_list dp pre).2 ++ f :: (scan_workflows_list dp post).2) := by
  rw [scan_workflows_list_append]
  simp [scan_workflows_list, h]

/-- Witness for C3: a directory with one unparsable file and one valid
file still indexes the valid file, records the error, and leaves the bad
file unchanged on disk. -/
theorem scan_error_skips_file_and_continues_witness :
    scan_workflows_list "workflows" [⟨"bad.json", WFileContent.parseError⟩, sampleWorkflowFile]
      = (⟨[sampleWorkflowItem], [("bad.json", WScanError.parse)], ["bad.json"]⟩,
         [⟨"bad.json", WFileContent.parseError⟩, sampleCleanFile]) :=
  scan_error_skips_file_and_continues "workflows" [] [sampleWorkflowFile]
    ⟨"bad.json", WFileContent.parseError⟩ WScanError.parse rfl

/-- C4: `clean_workflow_for_repo` returns a document in which the three
fields `isEnabled`, `isFavorite` and `wasEnabledBeforePermissionsLost`
hold boolean `false`, while every other top level field — recognized by
the schema or not, `_meta` included — is looked up unchanged.  The
function is pure: the input document is a Lean value and is not
mutated. -/
theorem clean_workflow_fields (d : List (String × JValue)) :
    lookupField "isEnabled" (clean_workflow_for_repo d) = some (JValue.bool false) ∧
    lookupField "isFavorite" (clean_workflow_for_repo d) = some (JValue.bool false) ∧
    lookupField "wasEnabledBeforePermissionsLost" (clean_workflow_for_repo d)
      = some (JValue.bool false) ∧
    ∀ k, k ≠ "isEnabled" → k ≠ "isFavorite" → k ≠ "wasEnabledBeforePermissionsLost" →
      lookupField k (clean_workflow_for_repo d) = lookupField k d :=
  ⟨lookupField_clean_isEnabled d, lookupField_clean_isFavorite d,
   lookupField_clean_wasEnabled d, fun _ h1 h2 h3 => lookupField_clean_of_ne h1 h2 h3 d⟩

/-- Witness for C4: on the sample document, the cleaned copy keeps the
`steps` field (and the `_meta` block) exactly as in the input. -/
theorem clean_workflow_fields_witness :
    lookupField "steps" (clean_workflow_for_repo sampleWorkflowDoc)
      = lookupField "steps" sampleWorkflowDoc ∧
    lookupField "isEnabled" (clean_workflow_for_repo sampleWorkflowDoc)
      = some (JValue.bool false) :=
  ⟨(clean_workflow_fields sampleWorkflowDoc).2.2.2 "steps"
      (by decide) (by decide) (by decide),
   (clean_workflow_fields sampleWorkflowDoc).1⟩

/-- C5: whatever order the directory enumeration produced the items in,
the entries of the generated index document are a permutation of them,
sorted ascending by id (two entries with string ids — the only kind the
scanners produce — appear in lexicographic order), and `total_count`
equals the length of the entries list. -/
theorem generate_index_sorted_total_count {ι ε : Type} (idOf : ι → JValue)
    (items : List ι) (errors : List ε) :
    ∃ doc ok, generate_index idOf true items errors = some (doc, ok) ∧
      doc.entries.Perm items ∧
      doc.entries.Pairwise
        (fun a b => ∀ x y, idOf a = JValue.str x → idOf b = JValue.str y → x ≤ y) ∧
      doc.total_count = doc.entries.length := by
  refine ⟨⟨"1.0", (items.mergeSort fun a b => idLe (idOf a) (idOf b)).length,
      items.mergeSort fun a b => idLe (idOf a) (idOf b)⟩,
    decide (errors.length = 0), rfl, List.mergeSort_perm items _, ?_, rfl⟩
  have hs := @List.sorted_mergeSort ι (fun a b => idLe (idOf a) (idOf b))
    (fun a b c hab hbc => idLe_trans _ _ _ hab hbc)
    (fun a b => idLe_total _ _) items
  exact hs.imp fun hab x y hx hy => idLe_str hab x y hx hy

/-- C6, evaluated at the failing input (code bug): the claimed relation —
exit status 0 exactly when both scans recorded zero errors, with each
`generate_index` run succeeding exactly when its error list is empty —
holds whenever both target directories exist, and the exit status is
always 0 or 1.  But at the failing input, a run whose directories are
missing, the equivalence breaks: both scans record zero errors, yet the
uncaught `FileNotFoundError` raised by the index write makes the process
exit with status 1. -/
theorem exit_code_bug_on_missing_directory (wd md : String)
    (wfiles : List WFile) (mfiles : List MFile)
    (wfs : Option (List WFile)) (mfs : Option (List MFile)) :
    (script_main wd md none none = 1 ∧
      (scan_workflows_directory wd none).1.errors = [] ∧
      (scan_modules_directory md none).errors = []) ∧
    (script_main wd md (some wfiles) (some mfiles) = 0 ↔
      (scan_workflows_directory wd (some wfiles)).1.errors = []
        ∧ (scan_modules_directory md (some mfiles)).errors = []) ∧
    (∀ (ι ε : Type) (idOf : ι → JValue) (items : List ι) (errors : List ε),
      ∃ doc ok, generate_index idOf true items errors = some (doc, ok) ∧
        (ok = true ↔ errors = [])) ∧
    (script_main wd md wfs mfs = 0 ∨ script_main wd md wfs mfs = 1) := by
  refine ⟨⟨rfl, rfl, rfl⟩, ?_,
    fun ι ε idOf items errors =>
      ⟨_, _, rfl, generate_index_success_iff idOf items errors rfl⟩, ?_⟩
  · constructor
    · intro h0
      by_cases hw : (scan_workflows_directory wd (some wfiles)).1.errors = []
      · by_cases hm : (scan_modules_directory md (some mfiles)).errors = []
        · exact ⟨hw, hm⟩
        · exfalso
          unfold script_main at h0
          simp [generate_index, List.length_eq_zero, hw, hm] at h0
      · exfalso
        unfold script_main at h0
        simp [generate_index, List.length_eq_zero, hw] at h0
    · rintro ⟨hw, hm⟩
      unfold script_main
      simp [generate_index, hw, hm]
  · unfold script_main
    dsimp only
    split
    · exact Or.inr rfl
    · split
      · exact Or.inr rfl
      · split
        · exact Or.inl rfl
        · exact Or.inr rfl

/-- C7: a workflow document whose metadata block, or a module manifest
which, lacks at least one required field fails validation with a missing
required fields error naming exactly the absent required fields: a field
is named if and only if it is required and absent. -/
theorem validate_missing_fields_exact :
    (∀ (d meta : List (String × JValue)) (fn : String),
      lookupField "_meta" d = some (JValue.obj meta) →
      (∃ fl ∈ required_meta_fields, lookupField fl meta = none) →
      ∃ missing, validate_workflow d fn = some (WError.missingRequiredFields missing) ∧
        ∀ fl, fl ∈ missing ↔ fl ∈ required_meta_fields ∧ lookupField fl meta = none) ∧
    (∀ (manifest : List (String × JValue)) (fn : String),
      (∃ fl ∈ required_fields, lookupField fl manifest = none) →
      ∃ missing, validate_module manifest fn = some (MError.missingRequiredFields missing) ∧
        ∀ fl, fl ∈ missing ↔ fl ∈ required_fields ∧ lookupField fl manifest = none) := by
  constructor
  · intro d meta fn hmeta hex
    obtain ⟨fl0, hfl0, habs0⟩ := hex
    refine ⟨required_meta_fields.filter fun f => (lookupField f meta).isNone, ?_, ?_⟩
    · unfold validate_workflow
      rw [hmeta]
      dsimp only
      rw [if_pos ?_]
      intro hnil
      have : fl0 ∈ ([] : List String) := by
        rw [← hnil]
        exact List.mem_filter.mpr ⟨hfl0, by simp [habs0]⟩
      simp at this
    · intro fl
      simp [List.mem_filter, Option.isNone_iff_eq_none]
  · intro manifest fn hex
    obtain ⟨fl0, hfl0, habs0⟩ := hex
    refine ⟨required_fields.filter fun f => (lookupField f manifest).isNone, ?_, ?_⟩
    · unfold validate_module
      dsimp only
      rw [if_pos ?_]
      intro hnil
      have : fl0 ∈ ([] : List String) := by
        rw [← hnil]
        exact List.mem_filter.mpr ⟨hfl0, by simp [habs0]⟩
      simp at this
    · intro fl
      simp [List.mem_filter, Option.isNone_iff_eq_none]

/-- Witness for C7: `sampleBadDoc` lacks name, description, version and
vFlowLevel, and validation reports exactly the absent required fields. -/
theorem validate_missing_fields_exact_witness :
    (∃ missing, validate_workflow sampleBadDoc "x.json"
        = some (WError.missingRequiredFields missing) ∧
      ∀ fl, fl ∈ missing ↔ fl ∈ required_meta_fields ∧ lookupField fl sampleBadMeta = none) ∧
    (∃ missing, validate_module sampleBadMeta "x.zip"
        = some (MError.missingRequiredFields missing) ∧
      ∀ fl, fl ∈ missing ↔ fl ∈ required_fields ∧ lookupField fl sampleBadMeta = none) :=
  ⟨validate_missing_fields_exact.1 sampleBadDoc sampleBadMeta "x.json" rfl
      ⟨"name", by decide, rfl⟩,
   validate_missing_fields_exact.2 sampleBadMeta "x.zip" ⟨"name", by decide, rfl⟩⟩

/-- C8: the workflow sanitizer is idempotent — cleaning a cleaned
document changes nothing — and consequently a file the scanner has
already processed and rewritten is processed identically a second time:
the same index entry is produced and the identical content is written
back. -/
theorem clean_idempotent_rescan :
    (∀ d, clean_workflow_for_repo (clean_workflow_for_repo d) = clean_workflow_for_repo d) ∧
    (∀ (dp : String) (f : WFile) (item : WItem) (nf : WFile),
      processWFile dp f = WStep.ok item nf → processWFile dp nf = WStep.ok item nf) := by
  refine ⟨clean_idempotent, ?_⟩
  intro dp f item nf h
  obtain ⟨data, meta, hsuf, hidx, hc, hv, hmeta, hitem, hnf⟩ := processWFile_ok_inv h
  subst hnf
  unfold processWFile
  dsimp only
  rw [if_neg (not_not_intro hsuf), if_neg hidx]
  have hvc : validate_workflow (clean_workflow_for_repo data) f.name = none := by
    rw [validate_clean_eq, hv]
  have hmc : lookupField "_meta" (clean_workflow_for_repo data) = some (JValue.obj meta) := by
    rw [lookupField_clean_of_ne (by decide) (by decide) (by decide), hmeta]
  simp only [hvc, hmc]
  rw [clean_idempotent, hitem]

/-- Witness for C8: rescanning the already cleaned sample file yields the
same entry and the same rewritten file. -/
theorem clean_idempotent_rescan_witness :
    processWFile "workflows" sampleCleanFile
      = WStep.ok sampleWorkflowItem sampleCleanFile :=
  clean_idempotent_rescan.2 "workflows" sampleWorkflowFile sampleWorkflowItem
    sampleCleanFile rfl

/-- C9: every entry either scanner collects has its id equal to the
string obtained by normalizing its filename — the identifier match check
of validation forces the metadata id, the entry id and the normalized
filename to coincide. -/
theorem item_id_eq_normalized_filename :
    (∀ (dp : String) (files : List WFile) (item : WItem),
      item ∈ (scan_workflows_list dp files).1.items →
      item.id = JValue.str (normalize_workflow_id item.filename)) ∧
    (∀ (dp : String) (files : List MFile) (item : MItem),
      item ∈ (scan_modules_list dp files).items →
      item.id = JValue.str (normalize_module_id item.filename)) := by
  constructor
  · intro dp files
    induction files with
    | nil => intro item h; simp [scan_workflows_list] at h
    | cons f rest ih =>
        intro item h
        rw [scan_workflows_list] at h
        cases hp : processWFile dp f
        case notMatched =>
          rw [hp] at h
          exact ih item h
        case failed e =>
          rw [hp] at h
          exact ih item h
        case ok it nf =>
          rw [hp] at h
          simp only [List.mem_cons] at h
          rcases h with rfl | hm
          · obtain ⟨data, meta, -, -, -, hv, hmeta, hitem, -⟩ := processWFile_ok_inv hp
            obtain ⟨meta2, hmeta2, -, hid⟩ := validate_workflow_none hv
            rw [hmeta] at hmeta2
            have hmm : meta = meta2 := by simpa using hmeta2
            subst hmm
            rw [hitem]
            simp [jGet, hid]
          · exact ih item hm
  · intro dp files
    induction files with
    | nil => intro item h; simp [scan_modules_list] at h
    | cons f rest ih =>
        intro item h
        rw [scan_modules_list] at h
        cases hp : processMFile dp f
        case notMatched =>
          rw [hp] at h
          exact ih item h
        case failed e =>
          rw [hp] at h
          exact ih item h
        case ok it =>
          rw [hp] at h
          simp only [List.mem_cons] at h
          rcases h with rfl | hm
          · obtain ⟨manifest, -, -, -, hv, hitem⟩ := processMFile_ok_inv hp
            obtain ⟨-, hid⟩ := validate_module_none hv
            rw [hitem]
            simp [jGet, hid]
          · exact ih item hm

/-- Witness for C9: the entry collected from the sample workflow file has
id `wf`, the normalization of its filename `wf.json`. -/
theorem item_id_eq_normalized_filename_witness :
    sampleWorkflowItem.id = JValue.str (normalize_workflow_id sampleWorkflowItem.filename) :=
  item_id_eq_normalized_filename.1 "workflows" [sampleWorkflowFile] sampleWorkflowItem
    (show sampleWorkflowItem ∈ [sampleWorkflowItem] from List.mem_singleton.mpr rfl)

/-- C10: for a document that passes validation, the index entry holds the
validator required fields verbatim from the metadata block or manifest —
id, name, description, author, version and vFlowLevel for workflows; id,
name, description, author, version and category for modules — so the
`.get` fallback defaults can only ever fire on the optional fields. -/
theorem valid_entry_fields_verbatim :
    (∀ (dp : String) (f : WFile) (item : WItem) (nf : WFile),
      processWFile dp f = WStep.ok item nf →
      ∃ data meta, f.content = WFileContent.doc data ∧
        lookupField "_meta" data = some (JValue.obj meta) ∧
        lookupField "id" meta = some item.id ∧
        lookupField "name" meta = some item.name ∧
        lookupField "description" meta = some item.description ∧
        lookupField "author" meta = some item.author ∧
        lookupField "version" meta = some item.version ∧
        lookupField "vFlowLevel" meta = some item.vFlowLevel) ∧
    (∀ (dp : String) (f : MFile) (item : MItem),
      processMFile dp f = MStep.ok item →
      ∃ manifest, f.content = MFileContent.manifest manifest ∧
        lookupField "id" manifest = some item.id ∧
        lookupField "name" manifest = some item.name ∧
        lookupField "description" manifest = some item.description ∧
        lookupField "author" manifest = some item.author ∧
        lookupField "version" manifest = some item.version ∧
        lookupField "category" manifest = some item.category) := by
  constructor
  · intro dp f item nf h
    obtain ⟨data, meta, -, -, hc, hv, hmeta, hitem, -⟩ := processWFile_ok_inv h
    obtain ⟨meta2, hmeta2, hfil, -⟩ := validate_workflow_none hv
    rw [hmeta] at hmeta2
    have hmm : meta = meta2 := by simpa using hmeta2
    subst hmm
    refine ⟨data, meta, hc, hmeta, ?_, ?_, ?_, ?_, ?_, ?_⟩ <;>
      (rw [hitem]; exact jGet_eq_of_filter_mem hfil (by decide) _)
  · intro dp f item h
    obtain ⟨manifest, -, -, hc, hv, hitem⟩ := processMFile_ok_inv h
    obtain ⟨hfil, -⟩ := validate_module_none hv
    refine ⟨manifest, hc, ?_, ?_, ?_, ?_, ?_, ?_⟩ <;>
      (rw [hitem]; exact jGet_eq_of_filter_mem hfil (by decide) _)

/-- Witness for C10: the entry built from the sample workflow file takes
all six required fields verbatim from its metadata block. -/
theorem valid_entry_fields_verbatim_witness :
    ∃ data meta, sampleWorkflowFile.content = WFileContent.doc data ∧
      lookupField "_meta" data = some (JValue.obj meta) ∧
      lookupField "id" meta = some sampleWorkflowItem.id ∧
      lookupField "name" meta = some sampleWorkflowItem.name ∧
      lookupField "description" meta = some sampleWorkflowItem.description ∧
      lookupField "author" meta = some sampleWorkflowItem.author ∧
      lookupField "version" meta = some sampleWorkflowItem.version ∧
      lookupField "vFlowLevel" meta = some sampleWorkflowItem.vFlowLevel :=
  valid_entry_fields_verbatim.1 "workflows" sampleWorkflowFile sampleWorkflowItem
    sampleCleanFile rfl

/-- Witness for C5: instantiating the sortedness and count statement at a
concrete two element list in an existing directory. -/
theorem generate_index_sorted_total_count_witness :
    ∃ doc ok,
      generate_index (fun v : JValue => v) true [JValue.str "b", JValue.str "a"]
          ([] : List Nat)
        = some (doc, ok) ∧
      doc.entries.Perm [JValue.str "b", JValue.str "a"] ∧
      doc.entries.Pairwise
        (fun a b => ∀ x y, a = JValue.str x → b = JValue.str y → x ≤ y) ∧
      doc.total_count = doc.entries.length :=
  generate_index_sorted_total_count (fun v : JValue => v)
    [JValue.str "b", JValue.str "a"] ([] : List Nat)
